import Mathlib

/-!
Verification development for the `tiktokvideo` repository.

Shallow embedding of the pure decision logic of the pipeline:
`core/subtitles.py` (word grouping into SRT cues), `core/media_fetcher.py`
(keyword extraction and background auto-fetch), `core/video_maker.py`
(command construction, hardware-fallback protocol, background-type
detection, hex-to-BGR color conversion) and the stage ordering of
`cli.py` / `app.py`.

Conventions of the embedding:
* Python strings are Lean `String`s; character-level operations work on
  `String.data` (a `List Char`).
* Timestamps and durations (Python floats coming from Whisper / ffprobe)
  are modelled as `ℚ`; Python `str(dur)` is modelled as `toString dur`.
* External effects (subprocess runs, network calls, the filesystem) are
  modelled as explicit parameters or oracles; stateful code is modelled by
  returning the new state.
-/

namespace TiktokVideo

/-! ## Hardware profile (`core/hardware.py`) — the two fields the claims use -/

/-- The fields of `HardwareProfile` consumed by `VideoMaker`. -/
structure HardwareProfile where
  ffmpeg_hw_accel : String
  ffmpeg_threads : ℕ
deriving DecidableEq, Repr

/-! ## Video maker (`core/video_maker.py`) -/

/-- Models `VideoMaker._encoding_args`: encoder arguments chosen from the
hardware profile's `ffmpeg_hw_accel` field. -/
def encoding_args (hw : HardwareProfile) : List String :=
  if hw.ffmpeg_hw_accel = "vaapi" then
    ["-vaapi_device", "/dev/dri/renderD128",
     "-vf", "format=nv12,hwupload",
     "-c:v", "h264_vaapi",
     "-qp", "23"]
  else if hw.ffmpeg_hw_accel = "nvenc" then
    ["-c:v", "h264_nvenc",
     "-preset", "p4",
     "-cq", "23"]
  else
    ["-c:v", "libx264",
     "-preset", "fast",
     "-crf", "23",
     "-threads", toString hw.ffmpeg_threads]

/-- The software (CPU) encoder arguments: the `else` branch of
`VideoMaker._encoding_args`. -/
def softwareArgs (hw : HardwareProfile) : List String :=
  ["-c:v", "libx264",
   "-preset", "fast",
   "-crf", "23",
   "-threads", toString hw.ffmpeg_threads]

/-- Result of one `subprocess.run` of ffmpeg: return code and stderr. -/
structure ProcResult where
  returncode : Int
  stderr : String
deriving DecidableEq, Repr

/-- Models Python `s[-500:]` (the last `n` characters of `s`). -/
def takeRightStr (s : String) (n : ℕ) : String :=
  ⟨s.data.drop (s.data.length - n)⟩

/-- The `RuntimeError` message raised by `VideoMaker.create` when encoding
fails: `f"FFmpeg erreur :\n{result.stderr[-500:]}"`. -/
def renderErrorMsg (stderr : String) : String :=
  "FFmpeg erreur :\n" ++ takeRightStr stderr 500

/-- Models the encode/retry tail of `VideoMaker.create` (lines 122–142).
`run1` is the outcome of the first `subprocess.run`; `run2` is the outcome
of the retry (consulted only when a retry actually happens).  Returns the
hardware profile after the run (the code mutates the process-wide profile
when downgrading), the number of encode attempts performed, and either the
output path or the raised error message. -/
def createRun (hw : HardwareProfile) (output_path : String)
    (run1 run2 : ProcResult) : HardwareProfile × ℕ × Except String String :=
  if run1.returncode = 0 then
    (hw, 1, .ok output_path)
  else if hw.ffmpeg_hw_accel ≠ "" then
    -- hardware encode failed: downgrade and retry once with software
    let hw2 : HardwareProfile := { hw with ffmpeg_hw_accel := "" }
    if run2.returncode = 0 then
      (hw2, 2, .ok output_path)
    else
      (hw2, 2, .error (renderErrorMsg run2.stderr))
  else
    (hw, 1, .error (renderErrorMsg run1.stderr))

/-- Models `VideoMaker._to_bgr`'s named-color table, on `List Char`. -/
def color_map : List (List Char × List Char) :=
  [("white".data, "FFFFFF".data), ("black".data, "000000".data),
   ("red".data, "0000FF".data), ("green".data, "00FF00".data),
   ("blue".data, "FF0000".data), ("yellow".data, "00FFFF".data)]

/-- ASCII lower-casing of one character, as Python `str.lower` acts on
ASCII input (the only characters the color names and hex digits use). -/
def charLower (c : Char) : Char :=
  match c with
  | 'A' => 'a' | 'B' => 'b' | 'C' => 'c' | 'D' => 'd' | 'E' => 'e'
  | 'F' => 'f' | 'G' => 'g' | 'H' => 'h' | 'I' => 'i' | 'J' => 'j'
  | 'K' => 'k' | 'L' => 'l' | 'M' => 'm' | 'N' => 'n' | 'O' => 'o'
  | 'P' => 'p' | 'Q' => 'q' | 'R' => 'r' | 'S' => 's' | 'T' => 't'
  | 'U' => 'u' | 'V' => 'v' | 'W' => 'w' | 'X' => 'x' | 'Y' => 'y'
  | 'Z' => 'z' | c => c

/-- The 22 hexadecimal-digit characters. -/
def hexDigits : List Char :=
  "0123456789abcdefABCDEF".data

/-- The byte-pair reversal `h[4:6] + h[2:4] + h[0:2]` from
`VideoMaker._to_bgr`, on the character list of a 6-hex-digit string. -/
def revBytes (h : List Char) : List Char :=
  (h.drop 4).take 2 ++ (h.drop 2).take 2 ++ h.take 2

/-- Models `VideoMaker._to_bgr` on `List Char`: named CSS colors via the
table, `#`-stripped 6-digit hex via byte reversal, anything else white. -/
def to_bgrL (color : List Char) : List Char :=
  match List.lookup (color.map charLower) color_map with
  | some v => v
  | none =>
    let h := color.dropWhile (fun c => c = '#')
    if h.length = 6 then revBytes h else "FFFFFF".data

/-- Models `VideoMaker._to_bgr` on strings. -/
def to_bgr (color : String) : String :=
  ⟨to_bgrL color.data⟩

/-! ## Stage ordering (`cli.py` and `app.py`) -/

/-- The pipeline stages named by the spec. -/
inductive Stage where
  | mediaFetch
  | voiceSynthesis
  | transcription
  | videoAssembly
deriving DecidableEq, Repr

/-- Models `VideoMaker.__init__` (lines 21–29): raises `RuntimeError` when
`shutil.which("ffmpeg")` is falsy, otherwise constructs normally. -/
def videoMakerInit (ffmpegPresent : Bool) : Except String Unit :=
  if ffmpegPresent then .ok ()
  else .error "FFmpeg non trouvé !"

/-- Models the stage ordering of `cli.py`'s `main`: step 1 media fetch
(when auto background is active), step 2 voice cloning, step 3 subtitles,
and only then step 4 constructs `VideoMaker` and assembles.  Returns the
stages whose work ran, and the overall outcome. -/
def cliRun (ffmpegPresent : Bool) (autoBg : Bool) : List Stage × Except String Unit :=
  let pre := (if autoBg then [Stage.mediaFetch] else [])
      ++ [Stage.voiceSynthesis, Stage.transcription]
  match videoMakerInit ffmpegPresent with
  | .error e => (pre, .error e)
  | .ok _ => (pre ++ [Stage.videoAssembly], .ok ())

/-- Models `app.py`'s module-level `video_maker = VideoMaker()` (line 29):
the constructor runs at startup, before any pipeline stage can execute.
Returns the stages that ran before the outcome. -/
def appStartup (ffmpegPresent : Bool) : List Stage × Except String Unit :=
  match videoMakerInit ffmpegPresent with
  | .error e => ([], .error e)
  | .ok _ => ([], .ok ())

/-! ## Subtitles (`core/subtitles.py`) -/

/-- A Whisper timed word: `word.start` and `word.end` (named `stop` here
because `end` is a Lean keyword). -/
structure Word where
  start : ℚ
  stop : ℚ
deriving DecidableEq, Repr

/-- A transcription segment: `segment.words` is `None` or a word list. -/
structure Segment where
  words : Option (List Word)
deriving DecidableEq, Repr

/-- Placeholder word used only to state `headD`/`getLastD`; every cue the
generator emits is nonempty, so it is never actually consulted. -/
def dummyWord : Word := ⟨0, 0⟩

/-- The group size of `SubtitleGenerator.generate_srt` (line 78):
`words_per_group = 2 if style == "tiktok" else 8`.  The spec calls the
2-word "tiktok" grouping the dense style. -/
def words_per_group (style : String) : ℕ :=
  if style = "tiktok" then 2 else 8

/-- An SRT entry as produced by `SubtitleGenerator._format_entry`: the
index, the first word's start time, the last word's end time, and the
grouped words themselves. -/
structure SrtEntry where
  index : ℕ
  startTime : ℚ
  endTime : ℚ
  words : List Word
deriving DecidableEq, Repr

/-- Models `SubtitleGenerator._format_entry` (lines 115–120): start is
`words[0].start`, end is `words[-1].end`. -/
def format_entry (index : ℕ) (words : List Word) : SrtEntry :=
  { index := index
    startTime := (words.headD dummyWord).start
    endTime := (words.getLastD dummyWord).stop
    words := words }

/-- Models the word-grouping loop of `SubtitleGenerator.generate_srt`
(lines 87–101): words are appended to a buffer which is flushed as a cue
whenever it reaches `n` words, and a final partial buffer is flushed at
the end. -/
def generateSrtAux (n : ℕ) (index : ℕ) (buffer : List Word) :
    List Word → List SrtEntry
  | [] => if buffer.isEmpty then [] else [format_entry index buffer]
  | w :: ws =>
    let buffer2 := buffer ++ [w]
    if n ≤ buffer2.length then
      format_entry index buffer2 :: generateSrtAux n (index + 1) [] ws
    else
      generateSrtAux n index buffer2 ws

/-- The timed words of a transcription in order: segments with
`words is None` are skipped (line 89). -/
def flatWords (segments : List Segment) : List Word :=
  (segments.map fun s => s.words.getD []).flatten

/-- Models `SubtitleGenerator.generate_srt` (lines 54–104) after the
transcription call: the grouping of the transcription's timed words into
SRT entries, with indices assigned from 1. -/
def generate_srt (style : String) (segments : List Segment) : List SrtEntry :=
  generateSrtAux (words_per_group style) 1 [] (flatWords segments)

/-- The hypothesis of claim C1: the transcription's timed words are in
order — every word starts no later than it ends, and word start times are
non-decreasing along the transcript. -/
def WordsOrdered (ws : List Word) : Prop :=
  (∀ w ∈ ws, w.start ≤ w.stop) ∧ ws.Pairwise fun a b => a.start ≤ b.start

/-- A concrete five-word transcription (with one timing-less segment)
used in witness statements. -/
def segsW : List Segment :=
  [⟨some [⟨0, 1⟩, ⟨1, 2⟩, ⟨2, 3⟩]⟩, ⟨none⟩, ⟨some [⟨3, 4⟩, ⟨4, 5⟩]⟩]

/-! ## Keyword extraction (`core/media_fetcher.py`) -/

/-- The French stop-word set `STOP_WORDS_FR`. -/
def STOP_WORDS_FR : List String :=
  ["le", "la", "les", "un", "une", "des", "de", "du", "au", "aux",
   "et", "ou", "mais", "donc", "car", "ni", "que", "qui", "quoi",
   "ce", "cette", "ces", "mon", "ma", "mes", "ton", "ta", "tes",
   "son", "sa", "ses", "notre", "votre", "leur", "leurs",
   "je", "tu", "il", "elle", "nous", "vous", "ils", "elles", "on",
   "ne", "pas", "plus", "jamais", "rien", "tout", "tous", "toute",
   "est", "sont", "être", "avoir", "fait", "faire", "dit", "dire",
   "dans", "sur", "sous", "avec", "sans", "pour", "par", "entre",
   "très", "bien", "aussi", "comme", "même", "encore", "déjà",
   "ici", "là", "alors", "puis", "après", "avant", "quand",
   "comment", "pourquoi", "où", "si", "oui", "non"]

/-- The English stop-word set `STOP_WORDS_EN`. -/
def STOP_WORDS_EN : List String :=
  ["the", "a", "an", "is", "are", "was", "were", "be", "been",
   "have", "has", "had", "do", "does", "did", "will", "would",
   "could", "should", "may", "might", "must", "shall",
   "i", "you", "he", "she", "it", "we", "they", "me", "him",
   "her", "us", "them", "my", "your", "his", "its", "our", "their",
   "this", "that", "these", "those", "what", "which", "who",
   "in", "on", "at", "to", "for", "with", "from", "by", "about",
   "and", "or", "but", "not", "no", "so", "if", "then",
   "very", "just", "also", "how", "when", "where", "why"]

/-- The combined stop-word set `ALL_STOP_WORDS = STOP_WORDS_FR | STOP_WORDS_EN`
(membership is what matters, so a list union suffices). -/
def ALL_STOP_WORDS : List String := STOP_WORDS_FR ++ STOP_WORDS_EN

/-- Word characters of the regex `\w` on the texts this program handles:
ASCII alphanumerics, underscore, and non-ASCII letters (accented French
characters all satisfy this). -/
def isWordChar (c : Char) : Bool :=
  c.isAlphanum || c = '_' || 128 ≤ c.toNat

/-- One character of `re.sub(r"[^\w\s]", " ", ·)`: any character that is
neither a word character nor whitespace becomes a space. -/
def cleanChar (c : Char) : Char :=
  if isWordChar c || c.isWhitespace then c else ' '

/-- Python `str.split()` with no argument: split on whitespace runs,
discarding empty pieces.  The accumulator holds the current token
reversed. -/
def splitWsAux (acc : List Char) : List Char → List (List Char)
  | [] => if acc.isEmpty then [] else [acc.reverse]
  | c :: cs =>
    if c.isWhitespace then
      if acc.isEmpty then splitWsAux [] cs
      else acc.reverse :: splitWsAux [] cs
    else splitWsAux (c :: acc) cs

/-- The tokenisation of `MediaFetcher.extract_keywords` (lines 83–85):
lower-case, replace punctuation by spaces, split on whitespace. -/
def tokenize (text : String) : List String :=
  (splitWsAux [] ((text.data.map charLower).map cleanChar)).map fun cs => ⟨cs⟩

/-- The `meaningful` list (line 88): tokens neither in the stop-word set
nor of length ≤ 3. -/
def meaningfulTokens (text : String) : List String :=
  (tokenize text).filter fun w => !ALL_STOP_WORDS.contains w && decide (3 < w.length)

/-- The key order of a Python dict built by repeated insertion (lines
91–93): first-occurrence order, duplicates keep their first slot. -/
def dictKeys (ws : List String) : List String :=
  ws.foldl (fun ks w => if w ∈ ks then ks else ks ++ [w]) []

/-- The sort key of line 98: the pair `(freq[w], len(w))`. -/
def sortKey (meaningful : List String) (w : String) : ℕ × ℕ :=
  (meaningful.count w, w.length)

/-- Python's lexicographic order on 2-tuples of naturals. -/
def pairLexLe (p q : ℕ × ℕ) : Bool :=
  decide (p.1 < q.1) || (decide (p.1 = q.1) && decide (p.2 ≤ q.2))

/-- The comparison realising `sorted(keys, key=lambda w: (freq[w], len(w)),
reverse=True)`: `a` may precede `b` exactly when `b`'s key is
lexicographically ≤ `a`'s. A stable sort under this comparison is exactly
Python's stable descending sort. -/
def keyGe (meaningful : List String) (a b : String) : Bool :=
  pairLexLe (sortKey meaningful b) (sortKey meaningful a)

/-- Models `MediaFetcher.extract_keywords` (lines 68–95). -/
def extract_keywords (text : String) (max_keywords : ℕ := 3) : List String :=
  let meaningful := meaningfulTokens text
  let keys := dictKeys meaningful
  let sorted_words := keys.mergeSort (keyGe meaningful)
  sorted_words.take max_keywords

/-! ## Background auto-fetch (`core/media_fetcher.py`, lines 243–302)

Network and randomness are modelled by an oracle environment: what the
two Pexels searches return (as download-URL lists, the only field
`auto_fetch_background` reads from a result), which of the top 3 results
`random.choice` picks, and what `download_file` returns (`""` on
failure).  Each call site is also recorded in a log of network calls. -/

/-- One network interaction performed by `auto_fetch_background`. -/
inductive NetCall where
  | videoSearch (query : String)
  | photoSearch (query : String)
  | download (url : String)
deriving DecidableEq, Repr

/-- The oracle environment for `auto_fetch_background`. -/
structure FetchEnv where
  searchVideos : String → List String
  searchPhotos : String → List String
  choose : List String → String
  download : String → String

/-- The dict returned by `auto_fetch_background`:
`{"path": …, "type": …, "keywords": …}`. -/
structure BgResult where
  path : String
  type : String
  keywords : List String
deriving DecidableEq, Repr

/-- Models the `prefer_video` block (lines 277–283): search videos, pick
one of the top 3, download; `none` when nothing downloadable. -/
def tryVideo (env : FetchEnv) (query : String) (keywords : List String) :
    Option BgResult × List NetCall :=
  let videos := env.searchVideos query
  if videos.isEmpty then (none, [.videoSearch query])
  else
    let chosen := env.choose (videos.take 3)
    let local_path := env.download chosen
    if local_path = "" then (none, [.videoSearch query, .download chosen])
    else (some ⟨local_path, "video", keywords⟩, [.videoSearch query, .download chosen])

/-- Models one photo search/download round (lines 286–291 and 294–301),
parameterised by the keyword list stored in the result. -/
def tryPhoto (env : FetchEnv) (query : String) (keywords : List String) :
    Option BgResult × List NetCall :=
  let photos := env.searchPhotos query
  if photos.isEmpty then (none, [.photoSearch query])
  else
    let chosen := env.choose (photos.take 3)
    let local_path := env.download chosen
    if local_path = "" then (none, [.photoSearch query, .download chosen])
    else (some ⟨local_path, "image", keywords⟩, [.photoSearch query, .download chosen])

/-- Models `MediaFetcher.is_available` (lines 63–66): the Pexels key must
be longer than 10 characters. -/
def is_available (api_key : String) : Bool :=
  decide (10 < api_key.length)

/-- The keyword list `auto_fetch_background` works with (lines 266–268):
the extracted keywords, or the generic fallback pair when none survive. -/
def fetchKeywords (text : String) : List String :=
  let kws := extract_keywords text
  if kws.isEmpty then ["abstract", "background"] else kws

/-- The full query string of `auto_fetch_background` (line 270). -/
def fetchQuery (text : String) : String :=
  String.intercalate " " (fetchKeywords text)

/-- Models `MediaFetcher.auto_fetch_background` (lines 243–302), returning
the result dict together with the list of network calls performed. -/
def auto_fetch_background (api_key : String) (env : FetchEnv) (text : String)
    (prefer_video : Bool) : BgResult × List NetCall :=
  if !is_available api_key then (⟨"", "none", []⟩, [])
  else
    let keywords := fetchKeywords text
    let query := fetchQuery text
    let v := if prefer_video then tryVideo env query keywords else (none, [])
    match v with
    | (some r, log) => (r, log)
    | (none, log) =>
      match tryPhoto env query keywords with
      | (some r, log2) => (r, log ++ log2)
      | (none, log2) =>
        if 1 < keywords.length then
          let fallback_query := keywords.headD ""
          match tryPhoto env fallback_query [fallback_query] with
          | (some r, log3) => (r, log ++ log2 ++ log3)
          | (none, log3) => (⟨"", "none", keywords⟩, log ++ log2 ++ log3)
        else (⟨"", "none", keywords⟩, log ++ log2)

/-- A concrete oracle environment for witness statements: video search
finds nothing, photo search succeeds only for the query `"aaaa"`, and only
the URL `"u1"` downloads successfully. -/
def envRetryW : FetchEnv where
  searchVideos := fun _ => []
  searchPhotos := fun q => if q = "aaaa" then ["u1"] else []
  choose := fun l => l.headD ""
  download := fun u => if u = "u1" then "/cache/u1.jpg" else ""

/-! ## Command construction (`core/video_maker.py`) -/

/-- The fixed canvas width (`VideoMaker.WIDTH`). -/
def WIDTH : ℕ := 1080

/-- The fixed canvas height (`VideoMaker.HEIGHT`). -/
def HEIGHT : ℕ := 1920

/-- Models `VideoMaker._cmd_video_bg` (lines 147–165). -/
def cmd_video_bg (hw : HardwareProfile) (bg audio subs : String) (dur : ℚ)
    (out : String) : List String :=
  ["ffmpeg", "-y",
   "-stream_loop", "-1", "-i", bg,
   "-i", audio,
   "-filter_complex",
   "[0:v]scale=" ++ toString WIDTH ++ ":" ++ toString HEIGHT
     ++ ":force_original_aspect_ratio=increase,"
     ++ "crop=" ++ toString WIDTH ++ ":" ++ toString HEIGHT ++ ","
     ++ subs ++ "[v]",
   "-map", "[v]", "-map", "1:a"]
  ++ encoding_args hw
  ++ ["-c:a", "aac", "-b:a", "192k",
      "-shortest", "-t", toString dur,
      out]

/-- Models `VideoMaker._cmd_image_bg` (lines 167–183); `int(dur * fps)`
is the floor for the nonnegative durations ffprobe reports. -/
def cmd_image_bg (hw : HardwareProfile) (bg audio subs : String) (dur : ℚ)
    (out : String) : List String :=
  let fps : ℕ := 30
  let total_frames : ℤ := ⌊dur * (fps : ℚ)⌋
  ["ffmpeg", "-y",
   "-loop", "1", "-i", bg,
   "-i", audio,
   "-filter_complex",
   "[0:v]scale=2160:3840,zoompan=z=\x27min(zoom+0.0003,1.15)\x27"
     ++ ":x=\x27iw/2-(iw/zoom/2)\x27:y=\x27ih/2-(ih/zoom/2)\x27"
     ++ ":d=" ++ toString total_frames ++ ":s=" ++ toString WIDTH ++ "x"
     ++ toString HEIGHT ++ ":fps=" ++ toString fps ++ ","
     ++ subs ++ "[v]",
   "-map", "[v]", "-map", "1:a"]
  ++ encoding_args hw
  ++ ["-c:a", "aac", "-b:a", "192k",
      "-shortest", "-t", toString dur,
      out]

/-- The lavfi color-source argument of `VideoMaker._cmd_color_bg`:
`f"color=c=0x{color_clean}:s={W}x{H}:d={dur}:r=30"`. -/
def colorSourceArg (color : String) (dur : ℚ) : String :=
  let color_clean : String := ⟨color.data.dropWhile fun c => c = '#'⟩
  "color=c=0x" ++ color_clean ++ ":s=" ++ toString WIDTH ++ "x"
    ++ toString HEIGHT ++ ":d=" ++ toString dur ++ ":r=30"

/-- Models `VideoMaker._cmd_color_bg` (lines 185–200). -/
def cmd_color_bg (hw : HardwareProfile) (color audio subs : String) (dur : ℚ)
    (out : String) : List String :=
  ["ffmpeg", "-y",
   "-f", "lavfi",
   "-i", colorSourceArg color dur,
   "-i", audio,
   "-filter_complex", "[0:v]" ++ subs ++ "[v]",
   "-map", "[v]", "-map", "1:a"]
  ++ encoding_args hw
  ++ ["-c:a", "aac", "-b:a", "192k",
      "-shortest",
      out]

/-- The video extensions of `VideoMaker._detect_bg_type`. -/
def videoExts : List String := [".mp4", ".mov", ".avi", ".webm", ".mkv"]

/-- The image extensions of `VideoMaker._detect_bg_type`. -/
def imageExts : List String := [".jpg", ".jpeg", ".png", ".webp", ".bmp"]

/-- The final component of a POSIX path (cut at the last `/`). -/
def lastComponent (s : List Char) : List Char :=
  (s.reverse.takeWhile fun c => !(c = '/' : Bool)).reverse

/-- Models `pathlib.PurePath.suffix` on the character list of a path:
the extension from the last dot of the final component, empty when the
dot is the first or last character of that component. -/
def pathSuffix (s : List Char) : List Char :=
  let name := lastComponent s
  match name.reverse.findIdx? (fun c => c = '.') with
  | none => []
  | some j =>
    if 0 < name.length - 1 - j ∧ 1 ≤ j then (name.reverse.take (j + 1)).reverse
    else []

/-- The `Path(path).suffix.lower()` of `VideoMaker._detect_bg_type`. -/
def extLower (path : String) : String :=
  ⟨(pathSuffix path.data).map charLower⟩

/-- Models `VideoMaker._detect_bg_type` (lines 213–223); the filesystem is
an oracle `pathExists`. -/
def detect_bg_type (pathExists : String → Bool) (path : String) : String :=
  if path = "" || !pathExists path then "none"
  else
    let ext := extLower path
    if ext ∈ videoExts then "video"
    else if ext ∈ imageExts then "image"
    else "none"

/-- The background-type dispatch of `VideoMaker.create` (lines 96–97):
`"auto"` is replaced by the detected type. -/
def effectiveBgType (pathExists : String → Bool) (background_type path : String) :
    String :=
  if background_type = "auto" then detect_bg_type pathExists path
  else background_type

/-- The command dispatch of `VideoMaker.create` (lines 113–118): one
builder per background type, everything else falls to the solid-color
command. -/
def chooseCmd (hw : HardwareProfile) (bgType bg color audio subs : String)
    (dur : ℚ) (out : String) : List String :=
  if bgType = "video" then cmd_video_bg hw bg audio subs dur out
  else if bgType = "image" then cmd_image_bg hw bg audio subs dur out
  else cmd_color_bg hw color audio subs dur out

/-! ## Theorems -/

theorem charLower_hex_ne_y : ∀ c ∈ hexDigits, charLower c ≠ 'y' := by decide

theorem hex_ne_hash : ∀ c ∈ hexDigits, ¬(c = '#' : Bool) := by decide

theorem revBytes_involutive (s : List Char) (h6 : s.length = 6) :
    revBytes (revBytes s) = s := by
  match s, h6 with
  | [a, b, c, d, e, f], _ => simp [revBytes]

theorem to_bgrL_hex (s : List Char) (h6 : s.length = 6)
    (hhex : ∀ c ∈ s, c ∈ hexDigits) : to_bgrL s = revBytes s := by
  match s, h6, hhex with
  | [a, b, c, d, e, f], _, hhex =>
    have hya : charLower a ≠ 'y' := charLower_hex_ne_y a (hhex a (by simp))
    have hha : ¬(a = '#' : Bool) := hex_ne_hash a (hhex a (by simp))
    simp only [to_bgrL, color_map, List.map_cons, List.map_nil, List.lookup,
      List.dropWhile, hha, List.length_cons, List.length_nil]
    rw [show (([charLower a, charLower b, charLower c, charLower d,
        charLower e, charLower f] == "white".data) = false) by
          simp [List.instBEq, List.beq],
      show (([charLower a, charLower b, charLower c, charLower d,
        charLower e, charLower f] == "black".data) = false) by
          simp [List.instBEq, List.beq],
      show (([charLower a, charLower b, charLower c, charLower d,
        charLower e, charLower f] == "red".data) = false) by
          simp [List.instBEq, List.beq],
      show (([charLower a, charLower b, charLower c, charLower d,
        charLower e, charLower f] == "green".data) = false) by
          simp [List.instBEq, List.beq],
      show (([charLower a, charLower b, charLower c, charLower d,
        charLower e, charLower f] == "blue".data) = false) by
          simp [List.instBEq, List.beq],
      show (([charLower a, charLower b, charLower c, charLower d,
        charLower e, charLower f] == "yellow".data) = false) by
          simp [List.instBEq, List.beq, hya]]
    simp

theorem to_bgrL_hash_hex (s : List Char) (h6 : s.length = 6)
    (hhex : ∀ c ∈ s, c ∈ hexDigits) : to_bgrL ('#' :: s) = revBytes s := by
  match s, h6, hhex with
  | [a, b, c, d, e, f], _, hhex =>
    have hha : ¬(a = '#' : Bool) := hex_ne_hash a (hhex a (by simp))
    simp only [to_bgrL, color_map, List.map_cons, List.map_nil, List.lookup,
      List.dropWhile, hha]
    norm_num [List.instBEq, List.beq, show charLower '#' = '#' from rfl]

theorem mem_revBytes {s : List Char} (h6 : s.length = 6) :
    ∀ c ∈ revBytes s, c ∈ s := by
  match s, h6 with
  | [a, b, c, d, e, f], _ =>
    intro x hx
    simp [revBytes] at hx ⊢
    tauto

/-- Claim C9: `_to_bgr` maps a 6-hex-digit RGB color with optional leading
`#` to its byte-reversed BGR form (last pair, middle pair, first pair), so
`#1a1a2e` maps to `2e1a1a`, and applying the byte reversal twice returns
the original 6 hex digits. -/
theorem to_bgr_byte_reversal (s : List Char) (h6 : s.length = 6)
    (hhex : ∀ c ∈ s, c ∈ hexDigits) :
    to_bgr "#1a1a2e" = "2e1a1a" ∧
    to_bgrL ('#' :: s) = revBytes s ∧
    to_bgrL s = revBytes s ∧
    revBytes s =
      (s.drop 4).take 2 ++ (s.drop 2).take 2 ++ s.take 2 ∧
    to_bgrL (to_bgrL ('#' :: s)) = s ∧
    to_bgrL (to_bgrL s) = s := by
  have h6r : (revBytes s).length = 6 := by
    match s, h6 with
    | [a, b, c, d, e, f], _ => simp [revBytes]
  have hr : to_bgrL (revBytes s) = s := by
    rw [to_bgrL_hex (revBytes s) h6r fun c hc => hhex c (mem_revBytes h6 c hc),
      revBytes_involutive s h6]
  refine ⟨by decide, to_bgrL_hash_hex s h6 hhex, to_bgrL_hex s h6 hhex, rfl,
    ?_, ?_⟩
  · rw [to_bgrL_hash_hex s h6 hhex, hr]
  · rw [to_bgrL_hex s h6 hhex, hr]

/-- Witness for C9 at the spec's example color. -/
theorem to_bgr_byte_reversal_witness :
    ("1a1a2e".data.length = 6 ∧ ∀ c ∈ "1a1a2e".data, c ∈ hexDigits) ∧
    to_bgrL "#1a1a2e".data = revBytes "1a1a2e".data ∧
    to_bgrL (to_bgrL "#1a1a2e".data) = "1a1a2e".data := by
  have h := to_bgr_byte_reversal "1a1a2e".data (by decide) (by decide)
  have hd : "#1a1a2e".data = '#' :: "1a1a2e".data := by decide
  exact ⟨⟨by decide, by decide⟩, by rw [hd]; exact h.2.1,
    by rw [hd]; exact h.2.2.2.2.1⟩

theorem takeRightStr_le (s : String) (n : ℕ) :
    (takeRightStr s n).data.length ≤ n := by
  simp [takeRightStr]
  omega

/-- Claim C3: if a hardware accelerator is selected and the first encode
attempt fails, the profile's accelerator field is cleared for the rest of
the run and exactly one retry runs with the software encoder; if the retry
(or a first software-only attempt) also fails, the error carries the last
process's stderr truncated to its last 500 characters; any successful
attempt returns the output path. -/
theorem create_fallback_protocol (hw : HardwareProfile) (out : String)
    (run1 run2 : ProcResult) :
    (run1.returncode = 0 → createRun hw out run1 run2 = (hw, 1, .ok out)) ∧
    (run1.returncode ≠ 0 → hw.ffmpeg_hw_accel ≠ "" →
      (createRun hw out run1 run2).1.ffmpeg_hw_accel = "" ∧
      (createRun hw out run1 run2).2.1 = 2 ∧
      encoding_args (createRun hw out run1 run2).1 = softwareArgs hw ∧
      (run2.returncode = 0 → (createRun hw out run1 run2).2.2 = .ok out) ∧
      (run2.returncode ≠ 0 →
        (createRun hw out run1 run2).2.2 =
          .error ("FFmpeg erreur :\n" ++ takeRightStr run2.stderr 500))) ∧
    (run1.returncode ≠ 0 → hw.ffmpeg_hw_accel = "" →
      createRun hw out run1 run2 =
        (hw, 1, .error ("FFmpeg erreur :\n" ++ takeRightStr run1.stderr 500))) ∧
    (takeRightStr run1.stderr 500).data.length ≤ 500 ∧
    (takeRightStr run2.stderr 500).data.length ≤ 500 := by
  refine ⟨?_, ?_, ?_, takeRightStr_le _ _, takeRightStr_le _ _⟩
  · intro h1
    simp [createRun, h1]
  · intro h1 hacc
    by_cases h2 : run2.returncode = 0 <;>
      simp [createRun, h1, hacc, h2, encoding_args, softwareArgs, renderErrorMsg]
  · intro h1 hacc
    simp [createRun, h1, hacc, renderErrorMsg]

/-- Witness for C3: a vaapi profile whose first attempt fails and whose
software retry also fails. -/
theorem create_fallback_protocol_witness :
    ((1 : Int) ≠ 0 ∧ ("vaapi" : String) ≠ "") ∧
    (createRun ⟨"vaapi", 12⟩ "out.mp4" ⟨1, "boom1"⟩ ⟨1, "boom2"⟩).1.ffmpeg_hw_accel = "" ∧
    (createRun ⟨"vaapi", 12⟩ "out.mp4" ⟨1, "boom1"⟩ ⟨1, "boom2"⟩).2.1 = 2 ∧
    (createRun ⟨"vaapi", 12⟩ "out.mp4" ⟨1, "boom1"⟩ ⟨1, "boom2"⟩).2.2 =
      .error ("FFmpeg erreur :\n" ++ takeRightStr "boom2" 500) := by
  have h := (create_fallback_protocol ⟨"vaapi", 12⟩ "out.mp4" ⟨1, "boom1"⟩
    ⟨1, "boom2"⟩).2.1 (by decide) (by decide)
  exact ⟨⟨by decide, by decide⟩, h.1, h.2.1, h.2.2.2.2 (by decide)⟩

/-- Counterexample for C5: with ffmpeg absent and auto background active,
the CLI performs media fetch, voice synthesis and transcription before the
`VideoMaker` constructor raises, so the failure does not occur before any
pipeline stage executes. -/
theorem cli_stages_run_before_ffmpeg_check :
    videoMakerInit false = .error "FFmpeg non trouvé !" ∧
    (cliRun false true).1 =
      [Stage.mediaFetch, Stage.voiceSynthesis, Stage.transcription] ∧
    Stage.voiceSynthesis ∈ (cliRun false true).1 ∧
    Stage.transcription ∈ (cliRun false true).1 ∧
    (cliRun false true).2 = .error "FFmpeg non trouvé !" := by
  refine ⟨rfl, rfl, by decide, by decide, rfl⟩

/-- Claim C5 as amended: `VideoMaker` construction fails exactly when
ffmpeg is absent; in the web app the constructor runs at startup before
any stage, but in the CLI it only runs at the assembly step, after media
fetch, voice synthesis and transcription have already executed. -/
theorem videoMaker_fails_fast_at_construction (ffmpegPresent autoBg : Bool) :
    (videoMakerInit ffmpegPresent = .ok () ↔ ffmpegPresent = true) ∧
    (appStartup false).1 = [] ∧
    (appStartup false).2 = .error "FFmpeg non trouvé !" ∧
    (cliRun false autoBg).2 = .error "FFmpeg non trouvé !" ∧
    (cliRun false autoBg).1 =
      (if autoBg then [Stage.mediaFetch] else [])
        ++ [Stage.voiceSynthesis, Stage.transcription] := by
  cases ffmpegPresent <;> cases autoBg <;> simp [videoMakerInit, appStartup, cliRun]

/-- Claim C7: with an unconfigured provider (API key of length ≤ 10) the
auto-fetch returns immediately with empty path, kind none, empty keywords,
and performs zero network calls, for every oracle environment. -/
theorem auto_fetch_unconfigured (api_key : String) (env : FetchEnv)
    (text : String) (prefer_video : Bool) (h : api_key.length ≤ 10) :
    auto_fetch_background api_key env text prefer_video =
      (⟨"", "none", []⟩, []) := by
  have hav : is_available api_key = false := by
    simp [is_available]
    omega
  simp [auto_fetch_background, hav]

/-- Witness for C7. -/
theorem auto_fetch_unconfigured_witness :
    ("short" : String).length ≤ 10 ∧
    auto_fetch_background "short"
      ⟨fun _ => ["v"], fun _ => ["p"], fun l => l.headD "", fun _ => "x"⟩
      "some text" true = (⟨"", "none", []⟩, []) :=
  ⟨by decide, auto_fetch_unconfigured "short" _ "some text" true (by decide)⟩

theorem tryVideo_some {env : FetchEnv} {q : String} {kws : List String}
    {r : BgResult} {log : List NetCall}
    (h : tryVideo env q kws = (some r, log)) :
    r.path ≠ "" ∧ r.type = "video" ∧ r.keywords = kws := by
  simp only [tryVideo] at h
  split at h
  · simp at h
  · split at h
    · simp at h
    · rename_i hdl
      simp at h
      obtain ⟨h1, -⟩ := h
      subst h1
      exact ⟨hdl, rfl, rfl⟩

theorem tryPhoto_some {env : FetchEnv} {q : String} {kws : List String}
    {r : BgResult} {log : List NetCall}
    (h : tryPhoto env q kws = (some r, log)) :
    r.path ≠ "" ∧ r.type = "image" ∧ r.keywords = kws := by
  simp only [tryPhoto] at h
  split at h
  · simp at h
  · split at h
    · simp at h
    · rename_i hdl
      simp at h
      obtain ⟨h1, -⟩ := h
      subst h1
      exact ⟨hdl, rfl, rfl⟩

/-- Claim C8: every result of `auto_fetch_background` satisfies the
Background Asset invariant: kind `none` comes with the empty path, and
kinds `video`/`image` only come with a non-empty downloaded path. -/
theorem auto_fetch_invariant (api_key : String) (env : FetchEnv)
    (text : String) (prefer_video : Bool) :
    ((auto_fetch_background api_key env text prefer_video).1.type = "none" →
      (auto_fetch_background api_key env text prefer_video).1.path = "") ∧
    ((auto_fetch_background api_key env text prefer_video).1.type = "video" ∨
     (auto_fetch_background api_key env text prefer_video).1.type = "image" →
      (auto_fetch_background api_key env text prefer_video).1.path ≠ "") := by
  unfold auto_fetch_background
  split
  · simp
  · rcases hv : (if prefer_video then tryVideo env (fetchQuery text) (fetchKeywords text)
        else (none, [])) with ⟨v, logv⟩
    match v, hv with
    | some r, hv =>
      have hr : tryVideo env (fetchQuery text) (fetchKeywords text) = (some r, logv) := by
        by_cases hp : prefer_video <;> simp [hp] at hv
        · exact hv
      obtain ⟨hpath, htype, -⟩ := tryVideo_some hr
      simp [hv, htype, hpath]
    | none, hv =>
      rcases hp : tryPhoto env (fetchQuery text) (fetchKeywords text) with ⟨p, logp⟩
      match p, hp with
      | some r, hp =>
        obtain ⟨hpath, htype, -⟩ := tryPhoto_some hp
        simp [hv, hp, htype, hpath]
      | none, hp =>
        simp only [hv, hp]
        split
        · rcases hp2 : tryPhoto env ((fetchKeywords text).headD "")
              [(fetchKeywords text).headD ""] with ⟨p2, logp2⟩
          match p2, hp2 with
          | some r, hp2 =>
            obtain ⟨hpath, htype, -⟩ := tryPhoto_some hp2
            simp [hp2, htype, hpath]
          | none, hp2 => simp [hp2]
        · simp

/-- Witness for C8. -/
theorem auto_fetch_invariant_witness :
    (auto_fetch_background "short"
      ⟨fun _ => [], fun _ => [], fun l => l.headD "", fun _ => ""⟩
      "x" true).1.type = "none" ∧
    (auto_fetch_background "short"
      ⟨fun _ => [], fun _ => [], fun l => l.headD "", fun _ => ""⟩
      "x" true).1.path = "" :=
  ⟨rfl, (auto_fetch_invariant "short"
    ⟨fun _ => [], fun _ => [], fun l => l.headD "", fun _ => ""⟩ "x" true).1 rfl⟩

/-- Claim C6: when the provider is configured, more than one keyword was
extracted, the (preferred) full-query video search and the full-query
photo search produce nothing downloadable, and the single-top-keyword
photo retry finds a result whose download succeeds, then the returned
background has kind `image` and its keywords field is exactly the
one-element list with the top-ranked keyword. -/
theorem auto_fetch_single_keyword_retry (api_key : String) (env : FetchEnv)
    (text : String) (prefer_video : Bool)
    (havail : is_available api_key = true)
    (hmany : 1 < (fetchKeywords text).length)
    (hvid : prefer_video = true →
      (tryVideo env (fetchQuery text) (fetchKeywords text)).1 = none)
    (hphoto : (tryPhoto env (fetchQuery text) (fetchKeywords text)).1 = none)
    (hretry : (env.searchPhotos ((fetchKeywords text).headD "")).isEmpty = false)
    (hdl : env.download (env.choose
      ((env.searchPhotos ((fetchKeywords text).headD "")).take 3)) ≠ "") :
    (auto_fetch_background api_key env text prefer_video).1 =
      ⟨env.download (env.choose
          ((env.searchPhotos ((fetchKeywords text).headD "")).take 3)),
        "image", [(fetchKeywords text).headD ""]⟩ ∧
    (auto_fetch_background api_key env text prefer_video).1.type = "image" ∧
    (auto_fetch_background api_key env text prefer_video).1.keywords =
      [(fetchKeywords text).headD ""] := by
  have hretry2 : tryPhoto env ((fetchKeywords text).headD "")
      [(fetchKeywords text).headD ""] =
      (some ⟨env.download (env.choose
          ((env.searchPhotos ((fetchKeywords text).headD "")).take 3)),
        "image", [(fetchKeywords text).headD ""]⟩,
       [.photoSearch ((fetchKeywords text).headD ""),
        .download (env.choose
          ((env.searchPhotos ((fetchKeywords text).headD "")).take 3))]) := by
    simp only [tryPhoto, hretry]
    rw [if_neg hdl]
    simp
  have hmain : (auto_fetch_background api_key env text prefer_video).1 =
      ⟨env.download (env.choose
          ((env.searchPhotos ((fetchKeywords text).headD "")).take 3)),
        "image", [(fetchKeywords text).headD ""]⟩ := by
    unfold auto_fetch_background
    rw [havail]
    simp only [Bool.not_true, Bool.false_eq_true, if_false]
    rcases hv : (if prefer_video then tryVideo env (fetchQuery text) (fetchKeywords text)
        else (none, [])) with ⟨v, logv⟩
    have hvnone : v = none := by
      by_cases hp : prefer_video
      · rw [hp] at hv
        simp only [if_true] at hv
        have := hvid hp
        rw [hv] at this
        exact this
      · simp [hp] at hv
        exact hv.1.symm
    subst hvnone
    rcases hp : tryPhoto env (fetchQuery text) (fetchKeywords text) with ⟨p, logp⟩
    have hpnone : p = none := by
      rw [hp] at hphoto
      exact hphoto
    subst hpnone
    simp only [hv, hp, hmany, if_true, hretry2]
  exact ⟨hmain, by rw [hmain], by rw [hmain]⟩

theorem fetchKeywords_concrete :
    fetchKeywords "aaaa bbbb aaaa" = ["aaaa", "bbbb"] := by
  have hk : dictKeys (meaningfulTokens "aaaa bbbb aaaa") = ["aaaa", "bbbb"] := by
    decide
  have hs : (dictKeys (meaningfulTokens "aaaa bbbb aaaa")).mergeSort
      (keyGe (meaningfulTokens "aaaa bbbb aaaa")) = ["aaaa", "bbbb"] := by
    rw [hk]
    exact List.mergeSort_of_sorted (by decide)
  simp only [fetchKeywords, extract_keywords]
  rw [hs]
  decide

/-- Witness for C6: both full-query searches fail, the `"aaaa"` retry
succeeds, and the result is an image tagged with just that keyword. -/
theorem auto_fetch_single_keyword_retry_witness :
    (auto_fetch_background "0123456789AB" envRetryW "aaaa bbbb aaaa" true).1.type
      = "image" ∧
    (auto_fetch_background "0123456789AB" envRetryW "aaaa bbbb aaaa" true).1.keywords
      = ["aaaa"] ∧
    (auto_fetch_background "0123456789AB" envRetryW "aaaa bbbb aaaa" true).1.path
      = "/cache/u1.jpg" := by
  have hq : fetchQuery "aaaa bbbb aaaa" = "aaaa bbbb" := by
    simp only [fetchQuery, fetchKeywords_concrete]
    decide
  have h := auto_fetch_single_keyword_retry "0123456789AB" envRetryW
    "aaaa bbbb aaaa" true (by decide)
    (by rw [fetchKeywords_concrete]; decide)
    (fun _ => rfl)
    (by rw [hq, fetchKeywords_concrete]; decide)
    (by rw [fetchKeywords_concrete]; decide)
    (by rw [fetchKeywords_concrete]; decide)
  refine ⟨h.2.1, ?_, ?_⟩
  · rw [h.2.2, fetchKeywords_concrete]
    rfl
  · rw [h.1, fetchKeywords_concrete]
    rfl

/-- Claim C10: with `background_type = "auto"` the render branch is
decided solely by the path: an empty path, a nonexistent path, or an
extension outside the two listed sets selects the solid-color (`"none"`)
branch, and only the listed extensions select the video or image branch. -/
theorem detect_bg_type_dispatch (pathExists : String → Bool) (path : String) :
    effectiveBgType pathExists "auto" path = detect_bg_type pathExists path ∧
    (path = "" → detect_bg_type pathExists path = "none") ∧
    (pathExists path = false → detect_bg_type pathExists path = "none") ∧
    (detect_bg_type pathExists path = "video" ↔
      path ≠ "" ∧ pathExists path = true ∧ extLower path ∈ videoExts) ∧
    (detect_bg_type pathExists path = "image" ↔
      path ≠ "" ∧ pathExists path = true ∧ extLower path ∉ videoExts ∧
        extLower path ∈ imageExts) ∧
    (extLower path ∉ videoExts → extLower path ∉ imageExts →
      detect_bg_type pathExists path = "none") := by
  refine ⟨rfl, ?_, ?_, ?_, ?_, ?_⟩
  · intro h
    simp [detect_bg_type, h]
  · intro h
    simp [detect_bg_type, h]
  · unfold detect_bg_type
    by_cases h1 : path = "" <;> by_cases h2 : pathExists path <;>
      by_cases h3 : extLower path ∈ videoExts <;>
      by_cases h4 : extLower path ∈ imageExts <;>
      simp [h1, h2, h3, h4]
  · unfold detect_bg_type
    by_cases h1 : path = "" <;> by_cases h2 : pathExists path <;>
      by_cases h3 : extLower path ∈ videoExts <;>
      by_cases h4 : extLower path ∈ imageExts <;>
      simp [h1, h2, h3, h4]
  · intro h3 h4
    unfold detect_bg_type
    by_cases h1 : path = "" <;> by_cases h2 : pathExists path <;>
      simp [h1, h2, h3, h4]

/-- Witness for C10 over the example paths: an uppercase video extension,
an image, an unknown extension, a missing file and an empty path. -/
theorem detect_bg_type_dispatch_witness :
    detect_bg_type (fun _ => true) "a/b.MP4" = "video" ∧
    detect_bg_type (fun _ => true) "a/b.jpeg" = "image" ∧
    detect_bg_type (fun _ => true) "a/b.gif" = "none" ∧
    detect_bg_type (fun _ => false) "a/b.mp4" = "none" ∧
    detect_bg_type (fun _ => true) "" = "none" := by
  refine ⟨?_, ?_, ?_, ?_, ?_⟩
  · exact ((detect_bg_type_dispatch (fun _ => true) "a/b.MP4").2.2.2.1).mpr
      ⟨by decide, rfl, by decide⟩
  · exact ((detect_bg_type_dispatch (fun _ => true) "a/b.jpeg").2.2.2.2.1).mpr
      ⟨by decide, rfl, by decide, by decide⟩
  · exact (detect_bg_type_dispatch (fun _ => true) "a/b.gif").2.2.2.2.2
      (by decide) (by decide)
  · exact (detect_bg_type_dispatch (fun _ => false) "a/b.mp4").2.2.1 rfl
  · exact (detect_bg_type_dispatch (fun _ => true) "").2.1 rfl

/-- Claim C4: for every background kind the command built by the video
assembler limits the output to the probed narration duration: it always
carries `-shortest`, the video and image commands carry `-t dur`, and the
solid-color command's lavfi source embeds `d=dur` with `r=30`. -/
theorem cmd_duration_clamp (hw : HardwareProfile)
    (bgType bg color audio subs : String) (dur : ℚ) (out : String) :
    "-shortest" ∈ chooseCmd hw bgType bg color audio subs dur out ∧
    (bgType = "video" ∨ bgType = "image" →
      ["-t", toString dur].IsInfix (chooseCmd hw bgType bg color audio subs dur out)) ∧
    (bgType ≠ "video" → bgType ≠ "image" →
      colorSourceArg color dur ∈ chooseCmd hw bgType bg color audio subs dur out ∧
      colorSourceArg color dur =
        "color=c=0x" ++ (⟨color.data.dropWhile fun c => c = '#'⟩ : String)
          ++ ":s=1080x1920:d=" ++ toString dur ++ ":r=30") := by
  refine ⟨?_, ?_, ?_⟩
  · unfold chooseCmd
    split
    · simp [cmd_video_bg]
    · split
      · simp [cmd_image_bg]
      · simp [cmd_color_bg]
  · rintro (h | h) <;> subst h <;> unfold chooseCmd <;> simp only [reduceIte]
    · exact ⟨["ffmpeg", "-y", "-stream_loop", "-1", "-i", bg, "-i", audio,
        "-filter_complex",
        "[0:v]scale=" ++ toString WIDTH ++ ":" ++ toString HEIGHT
          ++ ":force_original_aspect_ratio=increase,"
          ++ "crop=" ++ toString WIDTH ++ ":" ++ toString HEIGHT ++ ","
          ++ subs ++ "[v]",
        "-map", "[v]", "-map", "1:a"] ++ encoding_args hw
          ++ ["-c:a", "aac", "-b:a", "192k", "-shortest"], [out],
        by simp [cmd_video_bg]⟩
    · exact ⟨["ffmpeg", "-y", "-loop", "1", "-i", bg, "-i", audio,
        "-filter_complex",
        "[0:v]scale=2160:3840,zoompan=z=\x27min(zoom+0.0003,1.15)\x27"
          ++ ":x=\x27iw/2-(iw/zoom/2)\x27:y=\x27ih/2-(ih/zoom/2)\x27"
          ++ ":d=" ++ toString (⌊dur * ((30 : ℕ) : ℚ)⌋) ++ ":s=" ++ toString WIDTH ++ "x"
          ++ toString HEIGHT ++ ":fps=" ++ toString (30 : ℕ) ++ ","
          ++ subs ++ "[v]",
        "-map", "[v]", "-map", "1:a"] ++ encoding_args hw
          ++ ["-c:a", "aac", "-b:a", "192k", "-shortest"], [out],
        by simp [cmd_image_bg]⟩
  · intro h1 h2
    unfold chooseCmd
    rw [if_neg h1, if_neg h2]
    refine ⟨by simp [cmd_color_bg], ?_⟩
    have hW : toString WIDTH = "1080" := by decide
    have hH : toString HEIGHT = "1920" := by decide
    simp only [colorSourceArg, hW, hH, String.append_assoc]
    rfl

/-- Witness for C4 at each background kind. -/
theorem cmd_duration_clamp_witness :
    ["-t", toString (5 : ℚ)].IsInfix
      (chooseCmd ⟨"", 4⟩ "video" "bg.mp4" "#1a1a2e" "a.wav" "subs" 5 "o.mp4") ∧
    ["-t", toString (5 : ℚ)].IsInfix
      (chooseCmd ⟨"", 4⟩ "image" "bg.jpg" "#1a1a2e" "a.wav" "subs" 5 "o.mp4") ∧
    colorSourceArg "#1a1a2e" 5 ∈
      chooseCmd ⟨"", 4⟩ "none" "" "#1a1a2e" "a.wav" "subs" 5 "o.mp4" ∧
    "-shortest" ∈ chooseCmd ⟨"", 4⟩ "none" "" "#1a1a2e" "a.wav" "subs" 5 "o.mp4" := by
  refine ⟨?_, ?_, ?_, ?_⟩
  · exact (cmd_duration_clamp ⟨"", 4⟩ "video" "bg.mp4" "#1a1a2e" "a.wav" "subs"
      5 "o.mp4").2.1 (Or.inl rfl)
  · exact (cmd_duration_clamp ⟨"", 4⟩ "image" "bg.jpg" "#1a1a2e" "a.wav" "subs"
      5 "o.mp4").2.1 (Or.inr rfl)
  · exact ((cmd_duration_clamp ⟨"", 4⟩ "none" "" "#1a1a2e" "a.wav" "subs"
      5 "o.mp4").2.2 (by decide) (by decide)).1
  · exact (cmd_duration_clamp ⟨"", 4⟩ "none" "" "#1a1a2e" "a.wav" "subs"
      5 "o.mp4").1

theorem mem_insertKey_foldl (ws : List String) (acc : List String) (x : String) :
    x ∈ ws.foldl (fun ks w => if w ∈ ks then ks else ks ++ [w]) acc ↔
      x ∈ acc ∨ x ∈ ws := by
  induction ws generalizing acc with
  | nil => simp
  | cons w ws ih =>
    simp only [List.foldl_cons]
    rw [ih]
    by_cases h : w ∈ acc
    · simp only [h, if_true, List.mem_cons]
      constructor
      · tauto
      · rintro (hx | rfl | hx)
        · tauto
        · exact Or.inl h
        · tauto
    · simp only [h, if_false, List.mem_append, List.mem_singleton, List.mem_cons]
      tauto

theorem nodup_insertKey_foldl (ws : List String) (acc : List String)
    (h : acc.Nodup) :
    (ws.foldl (fun ks w => if w ∈ ks then ks else ks ++ [w]) acc).Nodup := by
  induction ws generalizing acc with
  | nil => exact h
  | cons w ws ih =>
    simp only [List.foldl_cons]
    by_cases hw : w ∈ acc
    · rw [if_pos hw]
      exact ih acc h
    · rw [if_neg hw]
      refine ih _ ?_
      simp [List.nodup_append, h, hw]

theorem mem_dictKeys (ws : List String) (x : String) :
    x ∈ dictKeys ws ↔ x ∈ ws := by
  rw [dictKeys, mem_insertKey_foldl]
  simp

theorem nodup_dictKeys (ws : List String) : (dictKeys ws).Nodup :=
  nodup_insertKey_foldl ws [] List.nodup_nil

theorem pairLexLe_total (p q : ℕ × ℕ) : pairLexLe p q || pairLexLe q p := by
  simp only [pairLexLe, Bool.or_eq_true, Bool.and_eq_true, decide_eq_true_eq]
  omega

theorem pairLexLe_trans (p q r : ℕ × ℕ) (h1 : pairLexLe p q = true)
    (h2 : pairLexLe q r = true) : pairLexLe p r = true := by
  simp only [pairLexLe, Bool.or_eq_true, Bool.and_eq_true, decide_eq_true_eq] at *
  omega

theorem keyGe_trans (m : List String) (a b c : String)
    (h1 : keyGe m a b = true) (h2 : keyGe m b c = true) : keyGe m a c = true :=
  pairLexLe_trans _ _ _ h2 h1

theorem keyGe_total (m : List String) (a b : String) :
    keyGe m a b || keyGe m b a :=
  pairLexLe_total (sortKey m b) (sortKey m a)

theorem mem_meaningfulTokens {text : String} {w : String}
    (h : w ∈ meaningfulTokens text) :
    w ∉ ALL_STOP_WORDS ∧ 3 < w.length ∧ w ∈ tokenize text := by
  rw [meaningfulTokens, List.mem_filter] at h
  obtain ⟨hmem, hpred⟩ := h
  simp only [Bool.and_eq_true, Bool.not_eq_true', decide_eq_true_eq] at hpred
  obtain ⟨hstop, hlen⟩ := hpred
  refine ⟨?_, hlen, hmem⟩
  intro hw
  rw [show ALL_STOP_WORDS.contains w = ALL_STOP_WORDS.elem w from rfl,
    List.elem_iff.mpr hw] at hstop
  simp at hstop

/-- Claim C2: `extract_keywords` lower-cases and tokenises the text, drops
stop words and tokens of length < 4, and returns at most `max_keywords`
distinct surviving tokens sorted descending by `(frequency, length)`
lexicographically; in particular no stop word or short token ever appears
in the output, and the function is deterministic. -/
theorem extract_keywords_spec (text : String) (max_keywords : ℕ) :
    (extract_keywords text max_keywords).length ≤ max_keywords ∧
    (extract_keywords text max_keywords).Nodup ∧
    (∀ w ∈ extract_keywords text max_keywords,
      w ∉ ALL_STOP_WORDS ∧ 3 < w.length ∧ w ∈ meaningfulTokens text) ∧
    (extract_keywords text max_keywords).Pairwise
      (fun a b => keyGe (meaningfulTokens text) a b = true) ∧
    extract_keywords text max_keywords = extract_keywords text max_keywords := by
  have hunfold : extract_keywords text max_keywords =
      ((dictKeys (meaningfulTokens text)).mergeSort
        (keyGe (meaningfulTokens text))).take max_keywords := rfl
  refine ⟨?_, ?_, ?_, ?_, rfl⟩
  · rw [hunfold]
    simp [List.length_take]
  · rw [hunfold]
    refine List.Nodup.sublist (List.take_sublist _ _) ?_
    exact ((List.mergeSort_perm (dictKeys (meaningfulTokens text)) _).nodup_iff).mpr
      (nodup_dictKeys _)
  · intro w hw
    rw [hunfold] at hw
    have h1 : w ∈ (dictKeys (meaningfulTokens text)).mergeSort
        (keyGe (meaningfulTokens text)) :=
      (List.take_sublist _ _).mem hw
    have h2 : w ∈ meaningfulTokens text :=
      (mem_dictKeys _ _).mp (List.mem_mergeSort.mp h1)
    obtain ⟨hstop, hlen, -⟩ := mem_meaningfulTokens h2
    exact ⟨hstop, hlen, h2⟩
  · rw [hunfold]
    refine List.Pairwise.sublist (List.take_sublist _ _) ?_
    exact List.sorted_mergeSort (keyGe_trans (meaningfulTokens text))
      (keyGe_total (meaningfulTokens text)) (dictKeys (meaningfulTokens text))

theorem extract_keywords_concrete :
    extract_keywords "aaaa bbbb aaaa" 3 = ["aaaa", "bbbb"] := by
  have hk : dictKeys (meaningfulTokens "aaaa bbbb aaaa") = ["aaaa", "bbbb"] := by
    decide
  have hs : (dictKeys (meaningfulTokens "aaaa bbbb aaaa")).mergeSort
      (keyGe (meaningfulTokens "aaaa bbbb aaaa")) = ["aaaa", "bbbb"] := by
    rw [hk]
    exact List.mergeSort_of_sorted (by decide)
  show ((dictKeys (meaningfulTokens "aaaa bbbb aaaa")).mergeSort
    (keyGe (meaningfulTokens "aaaa bbbb aaaa"))).take 3 = ["aaaa", "bbbb"]
  rw [hs]
  rfl

/-- Witness for C2 at a concrete text. -/
theorem extract_keywords_spec_witness :
    "aaaa" ∈ extract_keywords "aaaa bbbb aaaa" 3 ∧
    "aaaa" ∉ ALL_STOP_WORDS ∧ 3 < ("aaaa" : String).length ∧
    (extract_keywords "aaaa bbbb aaaa" 3).length ≤ 3 := by
  have h := extract_keywords_spec "aaaa bbbb aaaa" 3
  have hmem : "aaaa" ∈ extract_keywords "aaaa bbbb aaaa" 3 := by
    rw [extract_keywords_concrete]
    decide
  obtain ⟨hstop, hlen, -⟩ := h.2.2.1 "aaaa" hmem
  exact ⟨hmem, hstop, hlen, h.1⟩

theorem generateSrtAux_words_flatten (n idx : ℕ) (buffer ws : List Word) :
    ((generateSrtAux n idx buffer ws).map SrtEntry.words).flatten = buffer ++ ws := by
  induction ws generalizing idx buffer with
  | nil =>
    by_cases h : buffer.isEmpty
    · simp [generateSrtAux, h, List.isEmpty_iff.mp h]
    · simp [generateSrtAux, h, format_entry]
  | cons w ws ih =>
    simp only [generateSrtAux]
    by_cases h : n ≤ (buffer ++ [w]).length
    · rw [if_pos h]
      simp [format_entry, ih]
    · rw [if_neg h]
      simp [ih]

theorem generateSrtAux_mem_shape (n idx : ℕ) (buffer ws : List Word)
    (e : SrtEntry) (he : e ∈ generateSrtAux n idx buffer ws) :
    e.words ≠ [] ∧ e.startTime = (e.words.headD dummyWord).start ∧
      e.endTime = (e.words.getLastD dummyWord).stop := by
  induction ws generalizing idx buffer with
  | nil =>
    by_cases h : buffer.isEmpty
    · simp [generateSrtAux, h] at he
    · simp [generateSrtAux, h] at he
      subst he
      refine ⟨?_, rfl, rfl⟩
      simpa [List.isEmpty_iff] using h
  | cons w ws ih =>
    simp only [generateSrtAux] at he
    by_cases h : n ≤ (buffer ++ [w]).length
    · rw [if_pos h] at he
      rcases List.mem_cons.mp he with rfl | he2
      · exact ⟨by simp [format_entry], rfl, rfl⟩
      · exact ih (idx + 1) [] he2
    · rw [if_neg h] at he
      exact ih idx (buffer ++ [w]) he

theorem mem_dropLast_cons {α : Type} (x : α) (xs : List α) (a : α)
    (h : a ∈ (x :: xs).dropLast) : a = x ∨ a ∈ xs.dropLast := by
  cases xs with
  | nil => simp at h
  | cons y ys =>
    rw [List.dropLast_cons₂] at h
    exact List.mem_cons.mp h

theorem generateSrtAux_dropLast_length (n idx : ℕ) (buffer ws : List Word)
    (hb : buffer.length < n) :
    ∀ e ∈ (generateSrtAux n idx buffer ws).dropLast, e.words.length = n := by
  induction ws generalizing idx buffer with
  | nil =>
    by_cases h : buffer.isEmpty <;> simp [generateSrtAux, h]
  | cons w ws ih =>
    intro e he
    simp only [generateSrtAux] at he
    by_cases h : n ≤ (buffer ++ [w]).length
    · rw [if_pos h] at he
      rcases mem_dropLast_cons _ _ _ he with rfl | he2
      · simp only [format_entry, List.length_append, List.length_singleton]
        simp only [List.length_append, List.length_singleton] at h
        omega
      · exact ih (idx + 1) [] (by simp only [List.length_nil]; omega) e he2
    · rw [if_neg h] at he
      refine ih idx (buffer ++ [w]) ?_ e he
      simp only [List.length_append, List.length_singleton] at h ⊢
      omega

theorem generateSrtAux_map_index (n idx : ℕ) (buffer ws : List Word) :
    (generateSrtAux n idx buffer ws).map SrtEntry.index =
      List.range' idx (generateSrtAux n idx buffer ws).length := by
  induction ws generalizing idx buffer with
  | nil =>
    by_cases h : buffer.isEmpty <;>
      simp [generateSrtAux, h, format_entry, List.range']
  | cons w ws ih =>
    simp only [generateSrtAux]
    by_cases h : n ≤ (buffer ++ [w]).length
    · rw [if_pos h]
      simp only [List.map_cons, List.length_cons, List.range'_succ]
      rw [ih (idx + 1) []]
      rfl
    · rw [if_neg h]
      exact ih idx (buffer ++ [w])

theorem headD_mem {α : Type} (l : List α) (d : α) (h : l ≠ []) :
    l.headD d ∈ l := by
  cases l with
  | nil => exact absurd rfl h
  | cons x xs => simp

theorem getLastD_mem {α : Type} : ∀ (l : List α) (d : α), l ≠ [] → l.getLastD d ∈ l
  | [x], _, _ => by simp
  | x :: y :: t, d, _ => by
    rw [List.getLastD_cons]
    exact List.mem_cons_of_mem x (getLastD_mem (y :: t) x (by simp))

theorem headD_start_le_getLastD_start (l : List Word) (h : l ≠ [])
    (hp : l.Pairwise fun a b => a.start ≤ b.start) :
    (l.headD dummyWord).start ≤ (l.getLastD dummyWord).start := by
  cases l with
  | nil => exact absurd rfl h
  | cons x xs =>
    cases xs with
    | nil => simp
    | cons y t =>
      rw [List.headD_cons, List.getLastD_cons]
      have hx : ∀ b ∈ y :: t, x.start ≤ b.start := (List.pairwise_cons.mp hp).1
      exact hx _ (getLastD_mem (y :: t) x (by simp))

/-- Claim C1: for an in-order transcription, `generate_srt` groups the
timed words into cues of exactly `words_per_group style` words except
possibly the last (2 for the dense "tiktok" style, 8 for "classic"), a
final partial group is flushed, no word is lost, cue indices are
contiguous from 1 in emission order, each cue starts at its first word's
timestamp and ends at its last word's, every cue has `startTime ≤
endTime`, and cues are non-decreasing in `startTime`. -/
theorem generate_srt_spec (style : String) (segments : List Segment)
    (hord : WordsOrdered (flatWords segments)) :
    words_per_group "tiktok" = 2 ∧ words_per_group "classic" = 8 ∧
    (∀ e ∈ (generate_srt style segments).dropLast,
      e.words.length = words_per_group style) ∧
    ((generate_srt style segments).map SrtEntry.words).flatten = flatWords segments ∧
    (generate_srt style segments).map SrtEntry.index =
      List.range' 1 (generate_srt style segments).length ∧
    (∀ e ∈ generate_srt style segments,
      e.words ≠ [] ∧
      e.startTime = (e.words.headD dummyWord).start ∧
      e.endTime = (e.words.getLastD dummyWord).stop ∧
      e.startTime ≤ e.endTime) ∧
    (generate_srt style segments).Pairwise fun a b => a.startTime ≤ b.startTime := by
  obtain ⟨hwse, hpair⟩ := hord
  have hn : 0 < words_per_group style := by
    unfold words_per_group
    split <;> omega
  have hgen : generate_srt style segments =
      generateSrtAux (words_per_group style) 1 [] (flatWords segments) := rfl
  have hflat : ((generate_srt style segments).map SrtEntry.words).flatten =
      flatWords segments := by
    rw [hgen, generateSrtAux_words_flatten]
    rfl
  have hmemflat : ∀ {e : SrtEntry}, e ∈ generate_srt style segments →
      ∀ {x : Word}, x ∈ e.words → x ∈ flatWords segments := by
    intro e he x hx
    rw [← hflat]
    exact List.mem_flatten.mpr ⟨e.words, List.mem_map_of_mem SrtEntry.words he, hx⟩
  have hpj : (((generate_srt style segments).map SrtEntry.words).flatten).Pairwise
      (fun a b => a.start ≤ b.start) := by
    rw [hflat]
    exact hpair
  rw [List.pairwise_flatten] at hpj
  obtain ⟨hin, hcross⟩ := hpj
  have hshape : ∀ e ∈ generate_srt style segments,
      e.words ≠ [] ∧ e.startTime = (e.words.headD dummyWord).start ∧
        e.endTime = (e.words.getLastD dummyWord).stop := by
    intro e he
    rw [hgen] at he
    exact generateSrtAux_mem_shape _ _ _ _ e he
  refine ⟨rfl, rfl, ?_, hflat, ?_, ?_, ?_⟩
  · rw [hgen]
    exact generateSrtAux_dropLast_length _ _ _ _ (by simpa using hn)
  · rw [hgen]
    exact generateSrtAux_map_index _ _ _ _
  · intro e he
    obtain ⟨hne, hst, hen⟩ := hshape e he
    refine ⟨hne, hst, hen, ?_⟩
    have hinE : e.words.Pairwise fun a b => a.start ≤ b.start :=
      hin e.words (List.mem_map_of_mem SrtEntry.words he)
    have h1 : (e.words.headD dummyWord).start ≤ (e.words.getLastD dummyWord).start :=
      headD_start_le_getLastD_start e.words hne hinE
    have h2 : (e.words.getLastD dummyWord).start ≤ (e.words.getLastD dummyWord).stop :=
      hwse _ (hmemflat he (getLastD_mem e.words dummyWord hne))
    rw [hst, hen]
    exact h1.trans h2
  · have hc : (generate_srt style segments).Pairwise
        (fun e1 e2 => ∀ x ∈ e1.words, ∀ y ∈ e2.words, x.start ≤ y.start) :=
      (List.pairwise_map).mp hcross
    refine hc.imp_of_mem ?_
    intro e1 e2 h1 h2 hrel
    obtain ⟨hne1, hst1, -⟩ := hshape e1 h1
    obtain ⟨hne2, hst2, -⟩ := hshape e2 h2
    rw [hst1, hst2]
    exact hrel _ (headD_mem e1.words dummyWord hne1)
      _ (headD_mem e2.words dummyWord hne2)

/-- Witness for C1 on a concrete five-word transcription. -/
theorem generate_srt_spec_witness :
    WordsOrdered (flatWords segsW) ∧
    (generate_srt "tiktok" segsW).map SrtEntry.index =
      List.range' 1 (generate_srt "tiktok" segsW).length ∧
    (∀ e ∈ (generate_srt "tiktok" segsW).dropLast, e.words.length = 2) ∧
    (generate_srt "tiktok" segsW).Pairwise fun a b => a.startTime ≤ b.startTime := by
  have hord : WordsOrdered (flatWords segsW) := by
    constructor
    · decide
    · decide
  have h := generate_srt_spec "tiktok" segsW hord
  exact ⟨hord, h.2.2.2.2.1, fun e he => (h.2.2.1 e he).trans h.1, h.2.2.2.2.2.2⟩

end TiktokVideo
